import Mathlib

/-!
Shallow embedding of the qops-checks core pipeline:
  * `src/yaml_agent/identifier_extractor.py` (classification rule chain)
  * `src/yaml_agent/dependency_finder.py` (descriptor -> repository insertion)
  * `src/yaml_agent/graph_builder.py` (dependency graph construction)
  * `src/yaml_dependency_agent/yaml_agent/models.py` (BaseObject, Repository)
  * `src/yaml_dependency_agent/yaml_agent/schema_inferer.py` (type resolution)
  * `src/yaml_dependency_agent/yaml_agent/knowledge_base.py` (type catalog)
  * `src/yaml_dependency_agent/cli.py` (aggregate repository merge)

YAML document trees are modelled by the closed sum type `Node`
(mapping / sequence / scalar / null).  Python `dict.get` returning `None`
both for an absent key and for a key bound to `None` is mirrored by
`dget` returning `Node.null` in both cases; Python truthiness is the
`truthy` function.  The sqlite-backed knowledge base is modelled as an
in-memory list of rows in rowid order; the optional sentence-transformer
model and the torch cosine-similarity routine are modelled as abstract
capabilities (`Cap`): `enc = none` means the model could not be loaded
(`fuzzy_enabled = False`), an inner `none` models a raised exception.
-/

namespace QopsChecks

/-- A YAML document tree: string-keyed mapping, sequence, scalar leaf or
null.  Scalar leaves carry their rendered text; the claims under study
only exercise string scalars. -/
inductive Node where
  | scalar (s : String)
  | null
  | map (entries : List (String × Node))
  | seq (items : List Node)

mutual

/-- Decidable equality of YAML trees. -/
def nodeDecEq : (a b : Node) → Decidable (a = b)
  | .scalar a, .scalar b =>
      match String.decEq a b with
      | isTrue h => isTrue (by rw [h])
      | isFalse h => isFalse (fun hh => h (Node.scalar.inj hh))
  | .scalar _, .null => isFalse (fun h => Node.noConfusion h)
  | .scalar _, .map _ => isFalse (fun h => Node.noConfusion h)
  | .scalar _, .seq _ => isFalse (fun h => Node.noConfusion h)
  | .null, .scalar _ => isFalse (fun h => Node.noConfusion h)
  | .null, .null => isTrue rfl
  | .null, .map _ => isFalse (fun h => Node.noConfusion h)
  | .null, .seq _ => isFalse (fun h => Node.noConfusion h)
  | .map _, .scalar _ => isFalse (fun h => Node.noConfusion h)
  | .map _, .null => isFalse (fun h => Node.noConfusion h)
  | .map a, .map b =>
      match entriesDecEq a b with
      | isTrue h => isTrue (by rw [h])
      | isFalse h => isFalse (fun hh => h (Node.map.inj hh))
  | .map _, .seq _ => isFalse (fun h => Node.noConfusion h)
  | .seq _, .scalar _ => isFalse (fun h => Node.noConfusion h)
  | .seq _, .null => isFalse (fun h => Node.noConfusion h)
  | .seq _, .map _ => isFalse (fun h => Node.noConfusion h)
  | .seq a, .seq b =>
      match itemsDecEq a b with
      | isTrue h => isTrue (by rw [h])
      | isFalse h => isFalse (fun hh => h (Node.seq.inj hh))

/-- Decidable equality of mapping entry lists. -/
def entriesDecEq : (xs ys : List (String × Node)) → Decidable (xs = ys)
  | [], [] => isTrue rfl
  | [], _ :: _ => isFalse (fun h => List.noConfusion h)
  | _ :: _, [] => isFalse (fun h => List.noConfusion h)
  | (k, v) :: xs, (k', v') :: ys =>
      match String.decEq k k', nodeDecEq v v', entriesDecEq xs ys with
      | isTrue h1, isTrue h2, isTrue h3 => isTrue (by rw [h1, h2, h3])
      | isFalse h1, _, _ =>
          isFalse (fun hh => by
            injection hh with hp ht
            injection hp with hk hv
            exact h1 hk)
      | _, isFalse h2, _ =>
          isFalse (fun hh => by
            injection hh with hp ht
            injection hp with hk hv
            exact h2 hv)
      | _, _, isFalse h3 =>
          isFalse (fun hh => by
            injection hh with hp ht
            exact h3 ht)

/-- Decidable equality of sequence item lists. -/
def itemsDecEq : (xs ys : List Node) → Decidable (xs = ys)
  | [], [] => isTrue rfl
  | [], _ :: _ => isFalse (fun h => List.noConfusion h)
  | _ :: _, [] => isFalse (fun h => List.noConfusion h)
  | x :: xs, y :: ys =>
      match nodeDecEq x y, itemsDecEq xs ys with
      | isTrue h1, isTrue h2 => isTrue (by rw [h1, h2])
      | isFalse h1, _ =>
          isFalse (fun hh => by
            injection hh with hp ht
            exact h1 hp)
      | _, isFalse h2 =>
          isFalse (fun hh => by
            injection hh with hp ht
            exact h2 ht)

end

instance : DecidableEq Node := nodeDecEq

/-- Python truthiness of a YAML value: `None`, `""`, `{}` and `[]` are
falsy, everything else truthy. -/
def truthy : Node → Bool
  | .scalar s => s != ""
  | .null => false
  | .map entries => !entries.isEmpty
  | .seq items => !items.isEmpty

/-- Association-list lookup with decidable equality (Python `dict`
lookup; keys in a Python dict are unique). -/
def alookup {α β : Type} [DecidableEq α] : List (α × β) → α → Option β
  | [], _ => none
  | (k', v) :: rest, k => if k = k' then some v else alookup rest k

/-- `d.get(key, default)`: the default is used only when the key is
absent (a key bound to `None` yields `None`, not the default). -/
def dgetD (n : Node) (k : String) (dflt : Node) : Node :=
  match n with
  | .map entries => (alookup entries k).getD dflt
  | _ => .null

/-- `d.get(key)` — absent key and null value both give `None`. -/
def dget (n : Node) (k : String) : Node := dgetD n k .null

/-- Python `key in d`. -/
def hasKey (n : Node) (k : String) : Bool :=
  match n with
  | .map entries => (alookup entries k).isSome
  | _ => false

/-- Python `a or b` (returns `a` when truthy, else `b`). -/
def pyOr (a b : Node) : Node := if truthy a then a else b

/-- `isinstance(x, dict)`. -/
def isMapN : Node → Bool
  | .map _ => true
  | _ => false

/-- `isinstance(x, list)`. -/
def isSeqN : Node → Bool
  | .seq _ => true
  | _ => false

/-- The items of a sequence node (used after an `isinstance(x, list)`
guard). -/
def asSeq : Node → List Node
  | .seq items => items
  | _ => []

/-- `list(d.keys())` in insertion order. -/
def nodeKeys : Node → List String
  | .map entries => entries.map Prod.fst
  | _ => []

/-- The text of a scalar, `""` otherwise (used where the Python code
feeds the value to a string method after defaulting to `""`). -/
def asStr : Node → String
  | .scalar s => s
  | _ => ""

/-! ### Path handling (`os.path` on POSIX separators)

`basename`, `dirname` and `splitext` as used by the classifier to derive
its filename / parent-directory signals. -/

/-- `posixpath.split`: break at the final `/`; the head keeps no
trailing slashes unless it consists only of slashes. -/
def pathSplit (p : String) : String × String :=
  let cs := p.toList
  let tailLen := (cs.reverse.takeWhile (· ≠ '/')).length
  let i := cs.length - tailLen
  let head := cs.take i
  let tl := cs.drop i
  let head' :=
    if head ≠ [] ∧ head.any (· ≠ '/') then
      (head.reverse.dropWhile (· = '/')).reverse
    else head
  (String.mk head', String.mk tl)

/-- `os.path.basename`. -/
def pbasename (p : String) : String := (pathSplit p).2

/-- `os.path.dirname`. -/
def pdirname (p : String) : String := (pathSplit p).1

/-- ASCII `str.lower` on one character. -/
def lowerChar (c : Char) : Char :=
  if 'A' ≤ c ∧ c ≤ 'Z' then Char.ofNat (c.toNat + 32) else c

/-- ASCII `str.lower`. -/
def lowerStr (s : String) : String := String.mk (s.toList.map lowerChar)

/-- ASCII `str.upper` on one character. -/
def upperChar (c : Char) : Char :=
  if 'a' ≤ c ∧ c ≤ 'z' then Char.ofNat (c.toNat - 32) else c

/-- Python `str.capitalize`: first character upper-cased, the rest
lower-cased. -/
def capitalizeStr (s : String) : String :=
  match s.toList with
  | [] => ""
  | c :: rest => String.mk (upperChar c :: rest.map lowerChar)

/-- `os.path.splitext(b)[0]` for a slash-free basename `b`: drop the
extension at the last dot, except when every character before that dot
is itself a dot (leading dots are not extension separators). -/
def splitextRoot (b : String) : String :=
  let cs := b.toList
  let tailLen := (cs.reverse.takeWhile (· ≠ '.')).length
  if tailLen = cs.length then b
  else
    let dotIndex := cs.length - tailLen - 1
    if (cs.take dotIndex).any (· ≠ '.') then String.mk (cs.take dotIndex) else b

/-! ### `identifier_extractor.py`

The classifier.  The transient Python result dicts are modelled by one
`Descriptor` structure whose unused keys stay at their defaults; the
`raw_yaml_dict` subtree stashed for later re-inspection carries no
information the claims touch and is dropped.  `classify_and_extract`
returning `None` is modelled as `[]` and a single result dict as a
one-element list — exactly how its sole caller `_scan_dict_node`
consumes the three shapes. -/

/-- A transient entity descriptor (one result dict of the extractors). -/
structure Descriptor where
  obj_id : Node
  type_name : String
  file_path : String
  fields : List String := []
  depends_on : List String := []
  expression : Node := .null
  definition : Node := .null
  visualization : Node := .null
  master_ref : Node := .null
  sheet_objects : List String := []
deriving DecidableEq

/-- `_get_qinfo`: `qInfo` at the top level when it is a dict, else
`Properties.qInfo` when that is a dict, else `{}`. -/
def get_qinfo (yaml_dict : Node) : Node :=
  if isMapN (dget yaml_dict "qInfo") then dget yaml_dict "qInfo"
  else
    let props := pyOr (dget yaml_dict "Properties") (.map [])
    if isMapN (dget props "qInfo") then dget props "qInfo"
    else .map []

/-- `is_dimension`: `qInfo.qType == 'dimension'` and a `qDim` dict under
`Properties`. -/
def is_dimension (yaml_dict : Node) : Bool :=
  let qi := get_qinfo yaml_dict
  if dget qi "qType" ≠ Node.scalar "dimension" then false
  else
    let props := pyOr (dget yaml_dict "Properties") (.map [])
    isMapN (dget props "qDim")

/-- `is_master_measure`: `qInfo.qType` in `('measure','mastermeasure',
'masterobject')` and `qHyperCubeDef.qMeasures` is a list. -/
def is_master_measure (yaml_dict : Node) : Bool :=
  let qi := get_qinfo yaml_dict
  if dget qi "qType" ∉ [Node.scalar "measure", Node.scalar "mastermeasure",
      Node.scalar "masterobject"] then false
  else
    let hcd := pyOr (dget yaml_dict "qHyperCubeDef") (.map [])
    isSeqN (dget hcd "qMeasures")

/-- `is_variable`: explicit `qInfo.qType == 'variable'` with a
definition, or a file under a `Variables` folder with a definition.  The
explicit-tag branch returns its answer even when false, matching the
Python early `return`. -/
def is_variable (yaml_dict : Node) (file_path : String) : Bool :=
  let qi := get_qinfo yaml_dict
  let props := pyOr (dget yaml_dict "Properties") (.map [])
  if dget qi "qType" = Node.scalar "variable" then
    hasKey props "qDefinition" || hasKey yaml_dict "Definition"
  else
    let parent_folder := lowerStr (pbasename (pdirname file_path))
    if parent_folder = "variables" ∧
        (hasKey props "qDefinition" || hasKey yaml_dict "Definition") then true
    else false

/-- `is_sheet`: `qInfo.qType == 'sheet'`. -/
def is_sheet (yaml_dict : Node) : Bool :=
  dget (get_qinfo yaml_dict) "qType" = Node.scalar "sheet"

/-- `is_widget_instance`: `qInfo.qType` in `('visualization','object')`,
or a `Vizlib`-prefixed type, or a `visualization`/`template` key under
`Properties`. -/
def is_widget_instance (yaml_dict : Node) : Bool :=
  let qi := get_qinfo yaml_dict
  let qtype := asStr (dgetD qi "qType" (.scalar ""))
  let props := pyOr (dget yaml_dict "Properties") (.map [])
  if qtype = "visualization" ∨ qtype = "object" then true
  else if qtype.startsWith "Vizlib" then true
  else hasKey props "visualization" || hasKey props "template"

/-- `extract_dimension_info`. -/
def extract_dimension_info (yaml_dict : Node) (file_path : String) : Descriptor :=
  let qi := get_qinfo yaml_dict
  let props := pyOr (dget yaml_dict "Properties") (.map [])
  let qdim := pyOr (dget props "qDim") (.map [])
  { obj_id := dget qi "qId"
    type_name := "YAML_Dimension"
    fields := nodeKeys qdim
    file_path := file_path }

/-- One result dict of the `for m in measures` loop of
`extract_master_measure_info`. -/
def measure_entry_desc (file_path : String) (m : Node) : Descriptor :=
  let mi_qi := pyOr (dget m "qInfo") (.map [])
  let mi_meta := pyOr (dget m "qMetaDef") (.map [])
  let mid := pyOr (pyOr (dget mi_qi "qId") (dget m "qLibraryId")) (dget mi_meta "title")
  { obj_id := mid
    type_name := "YAML_MasterMeasure"
    definition := dgetD m "qDef" (.scalar "")
    fields := []
    file_path := file_path }

/-- `extract_master_measure_info`: a single `YAML_MasterObject`
container entry when the measures list is falsy, else one
`YAML_MasterMeasure` entry per measure. -/
def extract_master_measure_info (yaml_dict : Node) (file_path : String) :
    List Descriptor :=
  let hcd := pyOr (dget yaml_dict "qHyperCubeDef") (.map [])
  let measures := pyOr (dget hcd "qMeasures") (.seq [])
  if !truthy measures then
    let qi := get_qinfo yaml_dict
    [{ obj_id := dget qi "qId"
       type_name := "YAML_MasterObject"
       fields := nodeKeys (pyOr (dget yaml_dict "Properties") (.map []))
       file_path := file_path }]
  else
    (asSeq measures).map (measure_entry_desc file_path)

/-- `extract_variable_info`. -/
def extract_variable_info (yaml_dict : Node) (file_path : String) : Descriptor :=
  let name := pyOr (dget yaml_dict "Name") (.scalar "<UnnamedVariable>")
  let expr := pyOr (dget yaml_dict "Definition")
    (dgetD (pyOr (dget yaml_dict "Properties") (.map [])) "qDefinition" (.scalar ""))
  { obj_id := name
    type_name := "YAML_Variable"
    expression := expr
    fields := []
    file_path := file_path }

/-- `extract_sheet_info`.  The scan of the sibling `Widgets` directory
reads the filesystem; the list of widget ids it yields is passed in as
`sheet_objs`. -/
def extract_sheet_info (yaml_dict : Node) (file_path : String)
    (sheet_objs : List String) : Descriptor :=
  let sp := pyOr (dget yaml_dict "SheetProperties") (.map [])
  let props := pyOr (dget sp "Properties") (.map [])
  let qi := pyOr (dget props "qInfo") (.map [])
  let pid := pyOr (pyOr (dget qi "qId") (dget sp "Id")) (.scalar "<UnnamedSheet>")
  { obj_id := pid
    type_name := "YAML_Sheet"
    fields := ["sheetObjects"]
    sheet_objects := sheet_objs
    file_path := file_path }

/-- `extract_widget_info`, including the `qHyperCubeDef.qMeasures` scan
that collects every truthy string `qLibraryId` into `depends_on`. -/
def extract_widget_info (yaml_dict : Node) (file_path : String) : Descriptor :=
  let qi := get_qinfo yaml_dict
  let wid := pyOr (pyOr (pyOr (dget qi "qId") (dget yaml_dict "Id"))
    (dget yaml_dict "Name")) (.scalar "<UnnamedWidget>")
  let props := pyOr (dget yaml_dict "Properties") (.map [])
  let qh := pyOr (dget props "qHyperCubeDef") (.map [])
  let measures := dgetD qh "qMeasures" (.seq [])
  let depends :=
    if isSeqN measures then
      (asSeq measures).filterMap (fun m =>
        match dget m "qLibraryId" with
        | .scalar s => if s ≠ "" then some s else none
        | _ => none)
    else []
  { obj_id := wid
    type_name := "YAML_Widget"
    fields := nodeKeys props
    visualization := dgetD props "visualization" (.scalar "")
    master_ref := pyOr (pyOr (dget props "template") (dget props "templateName"))
      (dget props "qExtendsId")
    depends_on := depends
    file_path := file_path }

/-- `classify_and_extract`: the ordered rule chain.  Returns `[]` for
the Python `None`, a one-element list for a single result dict.
`sheet_objs` abstracts the filesystem scan performed by the sheet
extractor. -/
def classify_and_extract (yaml_dict : Node) (file_path : String)
    (is_root : Bool) (sheet_objs : List String) : List Descriptor :=
  if !is_root then []
  else if !isMapN yaml_dict then []
  else
    let fname := lowerStr (pbasename file_path)
    let parent_folder := lowerStr (pbasename (pdirname file_path))
    if parent_folder = "variables" ∧ is_variable yaml_dict file_path then
      [extract_variable_info yaml_dict file_path]
    else if fname = "dimension.yaml" ∧ is_dimension yaml_dict then
      [extract_dimension_info yaml_dict file_path]
    else if fname = "measure.yaml" ∧ is_master_measure yaml_dict then
      extract_master_measure_info yaml_dict file_path
    else if fname = "masterobject.yaml" ∧ is_master_measure yaml_dict then
      let qi := get_qinfo yaml_dict
      [{ obj_id := dget qi "qId"
         type_name := "YAML_MasterObject"
         fields := nodeKeys (pyOr (dget yaml_dict "Properties") (.map []))
         file_path := file_path }]
    else if fname = "widget.yaml" ∧ is_widget_instance yaml_dict then
      [extract_widget_info yaml_dict file_path]
    else if fname = "sheet.yaml" ∧ is_sheet yaml_dict then
      [extract_sheet_info yaml_dict file_path sheet_objs]
    else
      let raw_qi := get_qinfo yaml_dict
      let fallback_id := pyOr (pyOr (dget raw_qi "qId") (dget yaml_dict "Id"))
        (.scalar (splitextRoot (pbasename file_path)))
      let type_name := "YAML_" ++ capitalizeStr parent_folder
      let props := pyOr (dget yaml_dict "Properties") (.map [])
      let fields := if isMapN props then nodeKeys props else []
      [{ obj_id := fallback_id
         type_name := type_name
         fields := fields
         file_path := file_path }]

/-! ### `models.py` -/

/-- `BaseObject`: a finalized entity.  `raw_yaml` (the stashed subtree)
carries no information the claims touch and is dropped. -/
structure BaseObject where
  obj_id : Node
  node_type : String
  file_path : String
  fields : List String
  depends_on : List String := []
deriving DecidableEq

/-- In-place update of a Python dict entry: an existing key keeps its
position, a new key is appended. -/
def upsert {α β : Type} [DecidableEq α] : List (α × β) → α → β → List (α × β)
  | [], k, v => [(k, v)]
  | (k', v') :: rest, k, v =>
      if k' = k then (k, v) :: rest else (k', v') :: upsert rest k v

/-- `Repository`: all parsed `BaseObject`s keyed by `obj_id`, in
insertion order. -/
structure Repository where
  objects : List (Node × BaseObject) := []
deriving DecidableEq

/-- `Repository.add_object`: `objects[obj.obj_id] = obj`. -/
def addObject (repo : Repository) (obj : BaseObject) : Repository :=
  { objects := upsert repo.objects obj.obj_id obj }

/-- `Repository.find_by_id`. -/
def findById (repo : Repository) (obj_id : Node) : Option BaseObject :=
  alookup repo.objects obj_id

/-- `obj_id in repo.objects` (key membership). -/
def repoHasKey (repo : Repository) (k : Node) : Bool :=
  (alookup repo.objects k).isSome

/-! ### `knowledge_base.py`

The sqlite table `object_types` is a list of rows in rowid order;
`type_id` is the `AUTOINCREMENT` primary key (nothing deletes rows, so
the next id is the current maximum plus one).  The optional
sentence-transformer model and torch cosine similarity are the abstract
capability `Cap`: `enc = none` models `fuzzy_enabled = False`; an inner
`none` from `enc` or `cos` models a raised exception caught by the
corresponding `try/except`.  Similarity scores are rationals. -/

/-- An embedding vector. -/
abbrev Emb : Type := List ℚ

/-- One row of `object_types`. -/
structure TypeEntry where
  type_id : Nat
  type_name : String
  fields : List String
  emb : Option Emb := none
deriving DecidableEq

/-- The knowledge base (rows of `object_types` in rowid order). -/
structure KB where
  types : List TypeEntry := []
deriving DecidableEq

/-- The optional embedding capability: `enc` is the sentence-transformer
(`none` when loading the model failed), `cos` the cosine-similarity
comparison of two vectors (`none` models a raised exception, e.g. a
malformed stored vector). -/
structure Cap where
  enc : Option (String → Option Emb)
  cos : Emb → Emb → Option ℚ

/-- Stable ascending insertion sort — Python `sorted` on strings. -/
def insertSorted (x : String) : List String → List String
  | [] => [x]
  | y :: ys => if y < x then y :: insertSorted x ys else x :: y :: ys

/-- Python `sorted` for lists of strings. -/
def sortStrings : List String → List String
  | [] => []
  | x :: xs => insertSorted x (sortStrings xs)

/-- `max(ids, default=0)` over the stored `type_id`s. -/
def maxTypeId (kb : KB) : Nat :=
  (kb.types.map (·.type_id)).foldl max 0

/-- `KnowledgeBase.add_type`: normalize (lowercase, sorted), compute the
embedding when the capability is present, and insert — unless the type
name already exists (`sqlite3.IntegrityError`), in which case nothing
changes.  `embedding` is the explicit-parameter path (always `None` on
the traced call sites). -/
def add_type (cap : Cap) (kb : KB) (type_name : String) (fields : List String)
    (embedding : Option Emb) : KB :=
  let normalized := sortStrings (fields.map lowerStr)
  let emb : Option Emb :=
    match embedding with
    | some e => some e
    | none =>
        match cap.enc with
        | some enc => enc (String.intercalate " " normalized)
        | none => none
  if kb.types.any (fun t => t.type_name = type_name) then kb
  else { types := kb.types ++ [{ type_id := maxTypeId kb + 1
                                 type_name := type_name
                                 fields := normalized
                                 emb := emb }] }

/-- The similarity of one stored row against the query embedding: the
row's stored vector (if any) compared by `cos` (`none` when the
comparison raises and the row is skipped). -/
def rowSim (cos : Emb → Emb → Option ℚ) (v : Emb) (t : TypeEntry) : Option ℚ :=
  t.emb.bind (fun e => cos v e)

/-- The `for type_id, emb_json in rows` loop of `find_candidate_type`:
running `(best_sim, best_type)` accumulator, updated on a strictly
greater similarity, rows whose comparison raises are skipped. -/
def fcLoop (cos : Emb → Emb → Option ℚ) (v : Emb) :
    List TypeEntry → ℚ → Option Nat → ℚ × Option Nat
  | [], best_sim, best_type => (best_sim, best_type)
  | t :: rest, best_sim, best_type =>
      match rowSim cos v t with
      | none => fcLoop cos v rest best_sim best_type
      | some s =>
          if best_sim < s then fcLoop cos v rest s (some t.type_id)
          else fcLoop cos v rest best_sim best_type

/-- `KnowledgeBase.find_candidate_type`: lowercase the fields, bail out
when the catalog is empty or the embedding capability is missing, encode
the sorted space-joined field names, scan the rows with a stored
embedding, and return the best row when its similarity reaches the
threshold. -/
def find_candidate_type (cap : Cap) (kb : KB) (fields : List String)
    (threshold : ℚ) : Option Nat :=
  let normalized := fields.map lowerStr
  if kb.types.isEmpty || cap.enc.isNone then none
  else
    match cap.enc with
    | none => none
    | some enc =>
        let new_text := String.intercalate " " (sortStrings normalized)
        match enc new_text with
        | none => none
        | some new_emb =>
            let rows := kb.types.filter (fun t => t.emb.isSome)
            let (best_sim, best_type) := fcLoop cap.cos new_emb rows 0 none
            match best_type with
            | some tid => if threshold ≤ best_sim then some tid else none
            | none => none

/-! ### `schema_inferer.py` -/

/-- The six canonical entity types that bypass catalog inference. -/
def KNOWN_SCHEMAS : List String :=
  ["YAML_Dimension", "YAML_MasterMeasure", "YAML_MasterObject",
   "YAML_Variable", "YAML_Sheet", "YAML_Widget"]

/-- Python `set(a) == set(b)` on string lists. -/
def setEqStr (a b : List String) : Bool :=
  a.all (fun x => b.contains x) && b.all (fun x => a.contains x)

/-- `propose_type_for_fields`: keep a known existing type, else exact
match on normalized field sets, else fuzzy match at threshold `0.9`,
else mint `UnknownType_<max type_id + 1>` and persist it.  Returns the
resolved name together with the updated catalog. -/
def propose_type_for_fields (cap : Cap) (kb : KB) (fields : List String)
    (existing_type : Option String) : String × KB :=
  let keepKnown : Bool :=
    match existing_type with
    | some t => t ≠ "" ∧ t ∈ KNOWN_SCHEMAS
    | none => false
  if keepKnown then (existing_type.getD "", kb)
  else
    let normalized := fields.map lowerStr
    match kb.types.find? (fun t => setEqStr (t.fields.map lowerStr) normalized) with
    | some t => (t.type_name, kb)
    | none =>
        let candidate := find_candidate_type cap kb normalized (9 / 10)
        let mint : String × KB :=
          let new_type := "UnknownType_" ++ toString (maxTypeId kb + 1)
          (new_type, add_type cap kb new_type normalized none)
        match candidate with
        | some cid =>
            if cid ≠ 0 then
              match kb.types.find? (fun r => r.type_id = cid) with
              | some row => (row.type_name, kb)
              | none => mint
            else mint
        | none => mint

/-- `infer_schema_for_base_object`: a known raw `node_type` is kept, any
other goes through `propose_type_for_fields`. -/
def infer_schema_for_base_object (cap : Cap) (kb : KB) (base_obj : BaseObject) :
    String × KB :=
  if base_obj.node_type ∈ KNOWN_SCHEMAS then (base_obj.node_type, kb)
  else propose_type_for_fields cap kb base_obj.fields none

/-! ### `dependency_finder.py` (insertion path) and `cli.py` (merge) -/

/-- `_create_base_object`: build the entity, resolve its final type
(this may grow the catalog even when insertion is skipped), then insert
only when the id is truthy and not yet present. -/
def create_base_object (cap : Cap) (info : Descriptor) (repo : Repository)
    (kb : KB) : Repository × KB :=
  let temp_obj : BaseObject :=
    { obj_id := info.obj_id
      node_type := info.type_name
      file_path := info.file_path
      fields := info.fields
      depends_on := info.depends_on }
  let resolved := infer_schema_for_base_object cap kb temp_obj
  let temp_obj := { temp_obj with node_type := resolved.1 }
  if truthy info.obj_id ∧ (findById repo info.obj_id).isNone then
    (addObject repo temp_obj, resolved.2)
  else (repo, resolved.2)

/-- Processing a batch of descriptors in order through
`_create_base_object`. -/
def process_descriptors (cap : Cap) (infos : List Descriptor)
    (repo : Repository) (kb : KB) : Repository × KB :=
  infos.foldl (fun acc info => create_base_object cap info acc.1 acc.2) (repo, kb)

/-- The per-app → aggregate merge loop of `cli.analyze`: each entity of
the per-app repository is added to the aggregate only when its key is
not yet present. -/
def merge_into_aggregate (aggregate : Repository) (perApp : Repository) :
    Repository :=
  perApp.objects.foldl
    (fun acc p => if repoHasKey acc p.1 then acc else addObject acc p.2)
    aggregate

/-! ### `graph_builder.py`

A `networkx.DiGraph` is a keyed node list (insertion ordered; re-adding
a node overwrites its attributes) plus an edge set. -/

/-- Node attributes: `(type_name, file_path)`. -/
structure DiGraph where
  nodes : List (Node × (String × String)) := []
  edges : List (Node × Node) := []
deriving DecidableEq

/-- `G.add_node(id, type_name=…, file_path=…)`. -/
def addGNode (g : DiGraph) (id : Node) (attrs : String × String) : DiGraph :=
  { g with nodes := upsert g.nodes id attrs }

/-- `G.add_edge(u, v)` (both endpoints already exist as nodes at every
call site of `build_dependency_graph`). -/
def addGEdge (g : DiGraph) (u v : Node) : DiGraph :=
  if (u, v) ∈ g.edges then g else { g with edges := g.edges ++ [(u, v)] }

/-- The body of the `for dep in set(obj.depends_on)` loop: skip falsy
deps; an in-repository target distinct from the source gets a plain
edge; everything else first (re-)writes the target node as
`("Unknown", "")` and then adds the edge. -/
def depStep (repo : Repository) (obj_id : Node) (g : DiGraph) (dep : String) :
    DiGraph :=
  if dep = "" then g
  else if repoHasKey repo (.scalar dep) ∧ Node.scalar dep ≠ obj_id then
    addGEdge g obj_id (.scalar dep)
  else if dep ≠ "" then
    addGEdge (addGNode g (.scalar dep) ("Unknown", "")) obj_id (.scalar dep)
  else g

/-- The per-entity part of the edge pass (entities with a falsy key are
skipped; `set(...)` is modelled by `dedup`, membership being all that
the algorithm depends on). -/
def entityEdgeStep (repo : Repository) (g : DiGraph) (p : Node × BaseObject) :
    DiGraph :=
  if truthy p.1 then (p.2.depends_on.dedup).foldl (depStep repo p.1) g else g

/-- The node pass of `build_dependency_graph`. -/
def nodeStep (g : DiGraph) (p : Node × BaseObject) : DiGraph :=
  if truthy p.1 then addGNode g p.1 (p.2.node_type, p.2.file_path) else g

/-- `build_dependency_graph`: one node per truthy-keyed entity, then the
edge pass over each entity's dependency set. -/
def build_dependency_graph (repo : Repository) : DiGraph :=
  let g := repo.objects.foldl nodeStep {}
  repo.objects.foldl (entityEdgeStep repo) g

/-! ### General lemmas about the building blocks -/

theorem alookup_upsert_self {α β : Type} [DecidableEq α]
    (l : List (α × β)) (k : α) (v : β) :
    alookup (upsert l k v) k = some v := by
  induction l with
  | nil => simp [upsert, alookup]
  | cons p rest ih =>
      obtain ⟨k', v'⟩ := p
      by_cases h : k' = k
      · subst h; simp [upsert, alookup]
      · have hne : ¬ k = k' := fun hh => h hh.symm
        simp [upsert, h, alookup, hne, ih]

theorem alookup_upsert_ne {α β : Type} [DecidableEq α]
    (l : List (α × β)) (k k₂ : α) (v : β) (hne : k₂ ≠ k) :
    alookup (upsert l k v) k₂ = alookup l k₂ := by
  induction l with
  | nil => simp [upsert, alookup, hne]
  | cons p rest ih =>
      obtain ⟨k', v'⟩ := p
      by_cases h : k' = k
      · subst h; simp [upsert, alookup, hne]
      · by_cases h2 : k₂ = k'
        · subst h2; simp [upsert, h, alookup]
        · simp [upsert, h, alookup, h2, ih]

theorem mem_upsert {α β : Type} [DecidableEq α]
    (l : List (α × β)) (k : α) (v : β) (p : α × β)
    (hp : p ∈ upsert l k v) : p ∈ l ∨ p = (k, v) := by
  induction l with
  | nil => simpa [upsert] using hp
  | cons q rest ih =>
      obtain ⟨k', v'⟩ := q
      by_cases h : k' = k
      · subst h
        simp only [upsert, if_pos rfl] at hp
        rcases List.mem_cons.mp hp with h1 | h1
        · exact Or.inr h1
        · exact Or.inl (List.mem_cons_of_mem _ h1)
      · simp only [upsert, if_neg h] at hp
        rcases List.mem_cons.mp hp with h1 | h1
        · exact Or.inl (h1 ▸ List.mem_cons_self _ _)
        · rcases ih h1 with h2 | h2
          · exact Or.inl (List.mem_cons_of_mem _ h2)
          · exact Or.inr h2

theorem mem_keys_upsert {α β : Type} [DecidableEq α]
    (l : List (α × β)) (k : α) (v : β) (a : α) :
    a ∈ (upsert l k v).map Prod.fst ↔ a ∈ l.map Prod.fst ∨ a = k := by
  induction l with
  | nil => simp [upsert]
  | cons q rest ih =>
      obtain ⟨k', v'⟩ := q
      by_cases h : k' = k
      · subst h; simp [upsert]; tauto
      · simp [upsert, h, ih]; tauto

theorem keys_nodup_upsert {α β : Type} [DecidableEq α]
    (l : List (α × β)) (k : α) (v : β)
    (h : (l.map Prod.fst).Nodup) : ((upsert l k v).map Prod.fst).Nodup := by
  induction l with
  | nil => simp [upsert]
  | cons q rest ih =>
      obtain ⟨k', v'⟩ := q
      simp only [List.map_cons, List.nodup_cons] at h
      by_cases hk : k' = k
      · subst hk
        simpa [upsert, List.nodup_cons] using h
      · simp only [upsert, if_neg hk, List.map_cons, List.nodup_cons]
        refine ⟨fun hmem => ?_, ih h.2⟩
        rcases (mem_keys_upsert rest k v k').mp hmem with h1 | h1
        · exact h.1 h1
        · exact hk h1

theorem truthy_pyOr (a b : Node) : truthy (pyOr a b) = (truthy a || truthy b) := by
  unfold pyOr
  by_cases h : truthy a <;> simp [h]

theorem mk_ne_empty (l : List Char) (h : l ≠ []) : String.mk l ≠ "" := by
  intro hc
  exact h (congrArg String.data hc)

theorem splitextRoot_ne_empty (b : String) (hb : b ≠ "") : splitextRoot b ≠ "" := by
  simp only [splitextRoot]
  split
  · exact hb
  · split
    · next h2 =>
        apply mk_ne_empty
        intro hnil
        rw [hnil] at h2
        simp at h2
    · exact hb

/-- Fold preservation: a property stable under every step holds after
the fold. -/
theorem foldl_preserve {α β : Type} (P : α → Prop) (f : α → β → α)
    (hstep : ∀ a b, P a → P (f a b)) :
    ∀ (l : List β) (a : α), P a → P (l.foldl f a) := by
  intro l
  induction l with
  | nil => intro a ha; exact ha
  | cons x xs ih => intro a ha; exact ih _ (hstep a x ha)

/-- Fold establishment: a property established by the step on a
distinguished list member and stable under every step holds after the
fold. -/
theorem foldl_establish {α β : Type} (P : α → Prop) (f : α → β → α) (b₀ : β)
    (hstep : ∀ a b, P a → P (f a b)) (hest : ∀ a, P (f a b₀)) :
    ∀ (l : List β) (a : α), b₀ ∈ l → P (l.foldl f a) := by
  intro l
  induction l with
  | nil => intro a ha; cases ha
  | cons x xs ih =>
      intro a hmem
      rcases List.mem_cons.mp hmem with h | h
      · exact foldl_preserve P f hstep xs (f a x) (h ▸ hest a)
      · exact ih (f a x) h

theorem mem_insertSorted (x a : String) (l : List String) :
    a ∈ insertSorted x l ↔ a = x ∨ a ∈ l := by
  induction l with
  | nil => simp [insertSorted]
  | cons y ys ih =>
      unfold insertSorted
      by_cases h : y < x
      · simp only [if_pos h, List.mem_cons, ih]
        tauto
      · simp only [if_neg h, List.mem_cons]

theorem mem_sortStrings (a : String) (l : List String) :
    a ∈ sortStrings l ↔ a ∈ l := by
  induction l with
  | nil => simp [sortStrings]
  | cons x xs ih =>
      unfold sortStrings
      rw [mem_insertSorted]
      simp [ih]

theorem toNat_ofNat_valid (n : Nat) (h : n.isValidChar) :
    (Char.ofNat n).toNat = n := by
  simp [Char.ofNat, h, Char.ofNatAux, Char.toNat, UInt32.toNat]

theorem char_le_iff_toNat (a b : Char) : a ≤ b ↔ a.toNat ≤ b.toNat := by
  rfl

theorem lowerChar_idem (c : Char) : lowerChar (lowerChar c) = lowerChar c := by
  unfold lowerChar
  by_cases h : 'A' ≤ c ∧ c ≤ 'Z'
  · simp only [h, if_true]
    have h65 : (65 : Nat) ≤ c.toNat := (char_le_iff_toNat 'A' c).mp h.1
    have h90 : c.toNat ≤ 90 := (char_le_iff_toNat c 'Z').mp h.2
    have hv : (c.toNat + 32).isValidChar := Or.inl (by omega)
    have ht : (Char.ofNat (c.toNat + 32)).toNat = c.toNat + 32 :=
      toNat_ofNat_valid _ hv
    have hno : ¬ ('A' ≤ Char.ofNat (c.toNat + 32) ∧ Char.ofNat (c.toNat + 32) ≤ 'Z') := by
      intro hc
      have h2 := (char_le_iff_toNat (Char.ofNat (c.toNat + 32)) 'Z').mp hc.2
      rw [ht] at h2
      have : c.toNat + 32 ≤ 90 := h2
      omega
    simp [hno]
  · simp [h]

theorem lowerStr_idem (s : String) : lowerStr (lowerStr s) = lowerStr s := by
  unfold lowerStr
  have h : lowerChar ∘ lowerChar = lowerChar := funext lowerChar_idem
  simp [List.map_map, h]

/-- Fold preservation restricted to steps taken on list members. -/
theorem foldl_preserve_mem {α β : Type} (P : α → Prop) (f : α → β → α) :
    ∀ (l : List β), (∀ a b, b ∈ l → P a → P (f a b)) →
      ∀ a, P a → P (l.foldl f a) := by
  intro l
  induction l with
  | nil => intro _ a ha; exact ha
  | cons x xs ih =>
      intro hstep a ha
      exact ih (fun a' b hb ha' => hstep a' b (List.mem_cons_of_mem _ hb) ha')
        (f a x) (hstep a x (List.mem_cons_self _ _) ha)

/-- `_create_base_object` preserves every already-stored entity
unchanged. -/
theorem create_base_object_preserves (cap : Cap) (info : Descriptor)
    (repo : Repository) (kb : KB) (k : Node) (e : BaseObject)
    (h : findById repo k = some e) :
    findById (create_base_object cap info repo kb).1 k = some e := by
  unfold create_base_object
  split
  · next hc =>
      have hne : k ≠ info.obj_id := by
        intro hk
        rw [hk] at h
        rw [h] at hc
        simp at hc
      simpa [findById, addObject, alookup_upsert_ne _ _ _ _ hne] using h
  · simpa using h

/-- `_create_base_object` inserts no falsy-keyed entity. -/
theorem create_base_object_keys_truthy (cap : Cap) (info : Descriptor)
    (repo : Repository) (kb : KB)
    (h : ∀ p ∈ repo.objects, truthy p.1 = true) :
    ∀ p ∈ (create_base_object cap info repo kb).1.objects, truthy p.1 = true := by
  unfold create_base_object
  split
  · next hc =>
      intro p hp
      rcases mem_upsert _ _ _ p hp with hmem | hkv
      · exact h p hmem
      · rw [hkv]
        exact hc.1
  · exact h

/-! ### C1 -/

/-- C1: repository insertion is first-writer-wins and drops id-less
descriptors.  Over any batch of descriptor insertions
(`_create_base_object` in order): a falsy-id descriptor is never
inserted (all stored keys stay truthy), and an already-stored entity is
left unchanged by every later insertion; the per-app → aggregate merge
of `cli.analyze` preserves already-aggregated entities the same way
(for repositories keyed by their entities' own ids, as `add_object`
always produces). -/
theorem C1_first_writer_wins (cap : Cap) (infos : List Descriptor)
    (repo : Repository) (kb : KB) (k : Node) (e : BaseObject)
    (agg src : Repository) :
    ((∀ p ∈ repo.objects, truthy p.1 = true) →
      ∀ p ∈ (process_descriptors cap infos repo kb).1.objects, truthy p.1 = true)
    ∧ (findById repo k = some e →
      findById (process_descriptors cap infos repo kb).1 k = some e)
    ∧ ((∀ q ∈ src.objects, q.1 = q.2.obj_id) → findById agg k = some e →
      findById (merge_into_aggregate agg src) k = some e) := by
  refine ⟨fun h0 => ?_, fun h0 => ?_, fun hwf h0 => ?_⟩
  · exact foldl_preserve
      (fun acc : Repository × KB => ∀ p ∈ acc.1.objects, truthy p.1 = true)
      _ (fun acc info => create_base_object_keys_truthy cap info acc.1 acc.2)
      infos (repo, kb) h0
  · exact foldl_preserve
      (fun acc : Repository × KB => findById acc.1 k = some e)
      _ (fun acc info => create_base_object_preserves cap info acc.1 acc.2 k e)
      infos (repo, kb) h0
  · refine foldl_preserve_mem (fun r : Repository => findById r k = some e)
      _ src.objects (fun r p hp hr => ?_) agg h0
    by_cases hk : repoHasKey r p.1
    · simpa [merge_into_aggregate, hk] using hr
    · have hne : k ≠ p.2.obj_id := by
        intro hkeq
        rw [← hwf p hp] at hkeq
        rw [hkeq] at hr
        simp [repoHasKey, findById] at hk hr
        rw [hr] at hk
        simp at hk
      simpa [hk, addObject, findById, alookup_upsert_ne _ _ _ _ hne] using hr

/-- Concrete capability with the embedding model absent. -/
def capPlain : Cap := { enc := none, cos := fun _ _ => none }

/-- An already-stored entity under id `"X"`. -/
def entityA : BaseObject :=
  { obj_id := .scalar "X", node_type := "YAML_Variable", file_path := "f1",
    fields := [] }

/-- A one-entity repository holding `entityA`. -/
def repoX : Repository := { objects := [(.scalar "X", entityA)] }

/-- A later descriptor reusing id `"X"` with a different type and
origin. -/
def laterX : Descriptor :=
  { obj_id := .scalar "X", type_name := "YAML_Widget", file_path := "f2" }

/-- A second-unit repository whose `"X"` entity would collide at
aggregation time. -/
def repoX2 : Repository :=
  { objects := [(.scalar "X",
      { obj_id := .scalar "X", node_type := "YAML_Widget", file_path := "f2",
        fields := [] })] }

/-- Witness for C1: inserting a second descriptor under id `"X"` leaves
the first entity unchanged, and so does merging a second unit whose
repository also holds an `"X"` entity. -/
theorem C1_first_writer_wins_witness :
    findById (process_descriptors capPlain [laterX] repoX {}).1 (.scalar "X")
      = some entityA ∧
    findById (merge_into_aggregate repoX repoX2) (.scalar "X") = some entityA :=
  ⟨(C1_first_writer_wins capPlain [laterX] repoX {} (.scalar "X") entityA
      {} {}).2.1 (by decide),
   (C1_first_writer_wins capPlain [] {} {} (.scalar "X") entityA
      repoX repoX2).2.2 (by decide) (by decide)⟩

/-! ### C2 -/

/-- A repository holding the single entity `"A"` whose dependency list
contains its own id. -/
def repoSelfDep : Repository :=
  { objects := [(.scalar "A",
      { obj_id := .scalar "A", node_type := "YAML_Widget",
        file_path := "p1", fields := [], depends_on := ["A"] })] }

/-- C2 (code bug): the claim says a dependency equal to the entity's own
id yields zero edges and leaves the node's attributes alone, and the
builder's own comment says the `else` branch is for dependencies absent
from the repository — but an in-repository self-dependency fails the
`dep != obj_id` conjunct and falls into that branch, so
`build_dependency_graph` adds the self-loop edge `A → A` and overwrites
node `A`'s attributes with `("Unknown", "")`. -/
theorem C2_self_dependency_adds_loop :
    (build_dependency_graph repoSelfDep).edges = [(.scalar "A", .scalar "A")] ∧
    alookup (build_dependency_graph repoSelfDep).nodes (.scalar "A")
      = some ("Unknown", "") := by
  constructor <;> rfl

/-! ### C7 -/

/-- A document in a `variables` directory carrying only a definition:
no `Name`, no type tag. -/
def docNoName : Node := .map [("Definition", .scalar "x")]

/-- C7 (code bug): the claim (and `is_variable`'s own docstring) require
a `Name` alongside the definition for untagged nodes in a `variables`
directory, but the code's folder branch checks only for the definition,
so this `Name`-less, tag-less document is still classified as a
Variable (with the sentinel id). -/
theorem C7_variable_without_name :
    (classify_and_extract docNoName "app/variables/foo.yaml" true []).map
        (fun d => (d.type_name, d.obj_id))
      = [("YAML_Variable", Node.scalar "<UnnamedVariable>")] ∧
    hasKey docNoName "Name" = false ∧
    dget (get_qinfo docNoName) "qType" ≠ Node.scalar "variable" := by
  refine ⟨rfl, rfl, by decide⟩

/-! ### Graph-pass lemmas for C3 -/

theorem addGEdge_nodes (g : DiGraph) (u v : Node) :
    (addGEdge g u v).nodes = g.nodes := by
  unfold addGEdge
  split <;> rfl

theorem addGNode_edges (g : DiGraph) (id : Node) (a : String × String) :
    (addGNode g id a).edges = g.edges := rfl

theorem mem_edges_addGEdge_mono (g : DiGraph) (u v : Node) (e : Node × Node)
    (h : e ∈ g.edges) : e ∈ (addGEdge g u v).edges := by
  unfold addGEdge
  split
  · exact h
  · exact List.mem_append_left _ h

theorem mem_edges_addGEdge_self (g : DiGraph) (u v : Node) :
    (u, v) ∈ (addGEdge g u v).edges := by
  unfold addGEdge
  split
  · next h => exact h
  · exact List.mem_append_right _ (List.mem_singleton.mpr rfl)

theorem addGEdge_edges_nodup (g : DiGraph) (u v : Node)
    (h : g.edges.Nodup) : (addGEdge g u v).edges.Nodup := by
  unfold addGEdge
  split
  · exact h
  · next hmem => simp [List.nodup_append, h, hmem]

/-- Once node `d` carries the placeholder attributes, every later step
of the edge pass keeps them (the only node writes the edge pass performs
are placeholder writes). -/
theorem depStep_preserves_unknown (repo : Repository) (k₀ : Node) (d : String)
    (g : DiGraph) (dep : String)
    (h : alookup g.nodes (.scalar d) = some ("Unknown", "")) :
    alookup (depStep repo k₀ g dep).nodes (.scalar d) = some ("Unknown", "") := by
  unfold depStep
  split
  · exact h
  · split
    · rw [addGEdge_nodes]
      exact h
    · rw [addGEdge_nodes]
      by_cases hdd : Node.scalar d = Node.scalar dep
      · rw [hdd]
        exact alookup_upsert_self _ _ _
      · unfold addGNode
        simpa [alookup_upsert_ne _ _ _ _ hdd] using h

/-- Processing a dependency absent from the repository writes the
placeholder node. -/
theorem depStep_establishes_unknown (repo : Repository) (k₀ : Node)
    (d : String) (g : DiGraph) (hd : d ≠ "")
    (habs : repoHasKey repo (.scalar d) = false) :
    alookup (depStep repo k₀ g d).nodes (.scalar d) = some ("Unknown", "") := by
  unfold depStep
  rw [if_neg hd, if_neg (by simp [habs]), if_pos hd, addGEdge_nodes]
  exact alookup_upsert_self _ _ _

theorem depStep_mem_edge_self (repo : Repository) (k₀ : Node) (g : DiGraph)
    (dep : String) (hd : dep ≠ "") :
    (k₀, Node.scalar dep) ∈ (depStep repo k₀ g dep).edges := by
  unfold depStep
  rw [if_neg hd]
  split
  · exact mem_edges_addGEdge_self _ _ _
  · exact mem_edges_addGEdge_self _ _ _

theorem depStep_mem_edge_mono (repo : Repository) (k₀ : Node) (g : DiGraph)
    (dep : String) (e : Node × Node) (h : e ∈ g.edges) :
    e ∈ (depStep repo k₀ g dep).edges := by
  unfold depStep
  split
  · exact h
  · split
    · exact mem_edges_addGEdge_mono _ _ _ _ h
    · refine mem_edges_addGEdge_mono _ _ _ _ ?_
      rw [addGNode_edges]
      exact h

theorem entityEdgeStep_preserves_unknown (repo : Repository) (d : String)
    (g : DiGraph) (p : Node × BaseObject)
    (h : alookup g.nodes (.scalar d) = some ("Unknown", "")) :
    alookup (entityEdgeStep repo g p).nodes (.scalar d) = some ("Unknown", "") := by
  unfold entityEdgeStep
  split
  · exact foldl_preserve
      (fun g' : DiGraph => alookup g'.nodes (.scalar d) = some ("Unknown", ""))
      (depStep repo p.1)
      (fun g' dep h' => depStep_preserves_unknown repo p.1 d g' dep h') _ g h
  · exact h

theorem entityEdgeStep_preserves_edge (repo : Repository) (e : Node × Node)
    (g : DiGraph) (p : Node × BaseObject) (h : e ∈ g.edges) :
    e ∈ (entityEdgeStep repo g p).edges := by
  unfold entityEdgeStep
  split
  · exact foldl_preserve (fun g' : DiGraph => e ∈ g'.edges)
      (depStep repo p.1)
      (fun g' dep h' => depStep_mem_edge_mono repo p.1 g' dep e h') _ g h
  · exact h

/-! ### C3 -/

/-- C3: graph building tolerates dangling references.  For a repository
with truthy keys (the invariant insertion maintains) and a non-empty
dependency id `d` absent from the repository, `build_dependency_graph`
yields the placeholder node `(d, "Unknown", "")` — exactly once, since
node keys are unrepeated — and one edge from each referencing entity to
`d` (edges are likewise unrepeated); totality of
`build_dependency_graph` is the no-failure guarantee. -/
theorem C3_dangling_reference (repo : Repository) (d : String)
    (hkeys : ∀ p ∈ repo.objects, truthy p.1 = true)
    (hd : d ≠ "")
    (habs : repoHasKey repo (.scalar d) = false)
    (href : ∃ p ∈ repo.objects, d ∈ p.2.depends_on) :
    alookup (build_dependency_graph repo).nodes (.scalar d)
      = some ("Unknown", "") ∧
    ((build_dependency_graph repo).nodes.map Prod.fst).Nodup ∧
    (∀ p ∈ repo.objects, d ∈ p.2.depends_on →
      (p.1, Node.scalar d) ∈ (build_dependency_graph repo).edges) ∧
    (build_dependency_graph repo).edges.Nodup := by
  obtain ⟨p₀, hp₀, hdep₀⟩ := href
  unfold build_dependency_graph
  refine ⟨?_, ?_, ?_, ?_⟩
  · exact foldl_establish
      (fun g : DiGraph => alookup g.nodes (.scalar d) = some ("Unknown", ""))
      (entityEdgeStep repo) p₀
      (fun g p h => entityEdgeStep_preserves_unknown repo d g p h)
      (fun g => by
        unfold entityEdgeStep
        rw [if_pos (hkeys p₀ hp₀)]
        exact foldl_establish
          (fun g' : DiGraph => alookup g'.nodes (.scalar d) = some ("Unknown", ""))
          (depStep repo p₀.1) d
          (fun g' dep h' => depStep_preserves_unknown repo p₀.1 d g' dep h')
          (fun g' => depStep_establishes_unknown repo p₀.1 d g' hd habs)
          _ g (List.mem_dedup.mpr hdep₀))
      repo.objects _ hp₀
  · refine foldl_preserve (fun g : DiGraph => (g.nodes.map Prod.fst).Nodup)
      (entityEdgeStep repo) ?_ repo.objects _ ?_
    · intro g p h
      unfold entityEdgeStep
      split
      · refine foldl_preserve (fun g' : DiGraph => (g'.nodes.map Prod.fst).Nodup)
          (depStep repo p.1) ?_ _ g h
        intro g' dep h'
        unfold depStep
        split
        · exact h'
        · split
          · rw [addGEdge_nodes]
            exact h'
          · rw [addGEdge_nodes]
            exact keys_nodup_upsert _ _ _ h'
      · exact h
    · refine foldl_preserve (fun g : DiGraph => (g.nodes.map Prod.fst).Nodup)
        nodeStep ?_ repo.objects {} (by simp)
      intro g p h
      unfold nodeStep
      split
      · exact keys_nodup_upsert _ _ _ h
      · exact h
  · intro p hp hdep
    exact foldl_establish
      (fun g : DiGraph => (p.1, Node.scalar d) ∈ g.edges)
      (entityEdgeStep repo) p
      (fun g q h => entityEdgeStep_preserves_edge repo _ g q h)
      (fun g => by
        unfold entityEdgeStep
        rw [if_pos (hkeys p hp)]
        exact foldl_establish
          (fun g' : DiGraph => (p.1, Node.scalar d) ∈ g'.edges)
          (depStep repo p.1) d
          (fun g' dep h' => depStep_mem_edge_mono repo p.1 g' dep _ h')
          (fun g' => depStep_mem_edge_self repo p.1 g' d hd)
          _ g (List.mem_dedup.mpr hdep))
      repo.objects _ hp
  · refine foldl_preserve (fun g : DiGraph => g.edges.Nodup)
      (entityEdgeStep repo) ?_ repo.objects _ ?_
    · intro g p h
      unfold entityEdgeStep
      split
      · refine foldl_preserve (fun g' : DiGraph => g'.edges.Nodup)
          (depStep repo p.1) ?_ _ g h
        intro g' dep h'
        unfold depStep
        split
        · exact h'
        · split
          · exact addGEdge_edges_nodup _ _ _ h'
          · exact addGEdge_edges_nodup _ _ _ h'
      · exact h
    · refine foldl_preserve (fun g : DiGraph => g.edges.Nodup)
        nodeStep ?_ repo.objects {} (by simp)
      intro g p h
      unfold nodeStep
      split
      · exact h
      · exact h

/-- Entity `W`, referencing the missing id `M_missing`. -/
def entW : Node × BaseObject :=
  (.scalar "W",
    { obj_id := .scalar "W", node_type := "YAML_Widget",
      file_path := "w.yaml", fields := [], depends_on := ["M_missing"] })

/-- Entity `V`, also referencing the missing id `M_missing`. -/
def entV : Node × BaseObject :=
  (.scalar "V",
    { obj_id := .scalar "V", node_type := "YAML_Widget",
      file_path := "v.yaml", fields := [], depends_on := ["M_missing"] })

/-- Two entities `W` and `V` both referencing the missing id
`M_missing`. -/
def repoDangling : Repository := { objects := [entW, entV] }

/-- Witness for C3: both referencing entities get their edge to the
single synthesized `("Unknown", "")` node. -/
theorem C3_dangling_reference_witness :
    alookup (build_dependency_graph repoDangling).nodes (.scalar "M_missing")
      = some ("Unknown", "") ∧
    (Node.scalar "W", Node.scalar "M_missing")
      ∈ (build_dependency_graph repoDangling).edges ∧
    (Node.scalar "V", Node.scalar "M_missing")
      ∈ (build_dependency_graph repoDangling).edges := by
  have h := C3_dangling_reference repoDangling "M_missing" (by decide)
    (by decide) (by decide) (by decide)
  exact ⟨h.1,
    h.2.2.1 entW (by decide) (by decide),
    h.2.2.1 entV (by decide) (by decide)⟩

/-- `_create_base_object` on a descriptor whose provisional type is one
of the six canonical names: the catalog is never consulted and the
entity keeps the descriptor's data. -/
theorem create_base_object_known (cap : Cap) (d : Descriptor)
    (repo : Repository) (kb : KB) (hknown : d.type_name ∈ KNOWN_SCHEMAS) :
    create_base_object cap d repo kb =
      (if truthy d.obj_id ∧ (findById repo d.obj_id).isNone then
        addObject repo
          { obj_id := d.obj_id, node_type := d.type_name,
            file_path := d.file_path, fields := d.fields,
            depends_on := d.depends_on }
      else repo, kb) := by
  unfold create_base_object infer_schema_for_base_object
  simp only [hknown, if_pos]
  split <;> rfl

/-! ### C10 -/

/-- C10: only Dimension, MasterMeasure and MasterObject descriptors can
lose their id.  Any descriptor the classifier emits with a falsy id has
one of those three type names (the Variable, Widget and Sheet extractors
fall back to non-empty sentinel ids and the fallback rule's id defaults
to the non-empty filename stem); and two id-less variable documents in
one unit collapse under the shared sentinel `"<UnnamedVariable>"`,
first-writer-wins keeping only the first. -/
theorem C10_sentinel_ids :
    (∀ (y : Node) (path : String) (so : List String) (d : Descriptor),
      pbasename path ≠ "" →
      d ∈ classify_and_extract y path true so →
      truthy d.obj_id = false →
      d.type_name ∈ ["YAML_Dimension", "YAML_MasterMeasure", "YAML_MasterObject"])
    ∧ (∀ (y₁ y₂ : Node) (p₁ p₂ : String) (cap : Cap) (kb : KB),
      truthy (dget y₁ "Name") = false →
      truthy (dget y₂ "Name") = false →
      (process_descriptors cap
          [extract_variable_info y₁ p₁, extract_variable_info y₂ p₂] {} kb).1.objects
        = [(.scalar "<UnnamedVariable>",
            { obj_id := .scalar "<UnnamedVariable>",
              node_type := "YAML_Variable", file_path := p₁, fields := [],
              depends_on := [] })]) := by
  constructor
  · intro y path so d hbase hmem hfalsy
    unfold classify_and_extract at hmem
    simp only [Bool.not_true, Bool.false_eq_true, if_false] at hmem
    by_cases hmap : isMapN y
    swap
    · simp [hmap] at hmem
    rw [if_neg (by simp [hmap])] at hmem
    split at hmem
    · -- rule 1: Variable, sentinel id
      simp only [List.mem_singleton] at hmem
      rw [hmem, extract_variable_info] at hfalsy
      rw [truthy_pyOr] at hfalsy
      simp [truthy] at hfalsy
    · split at hmem
      · -- rule 2: Dimension
        simp only [List.mem_singleton] at hmem
        rw [hmem]
        simp [extract_dimension_info]
      · split at hmem
        · -- rule 3: measure explosion / container
          simp only [extract_master_measure_info] at hmem
          split at hmem
          · simp only [List.mem_singleton] at hmem
            rw [hmem]
            simp
          · rcases List.mem_map.mp hmem with ⟨m, _, hm⟩
            rw [← hm]
            simp [measure_entry_desc]
        · split at hmem
          · -- rule 4: MasterObject container
            simp only [List.mem_singleton] at hmem
            rw [hmem]
            simp
          · split at hmem
            · -- rule 5: Widget, sentinel id
              simp only [List.mem_singleton] at hmem
              rw [hmem, extract_widget_info] at hfalsy
              simp only [truthy_pyOr] at hfalsy
              simp [truthy] at hfalsy
            · split at hmem
              · -- rule 6: Sheet, sentinel id
                simp only [List.mem_singleton] at hmem
                rw [hmem, extract_sheet_info] at hfalsy
                simp only [truthy_pyOr] at hfalsy
                simp [truthy] at hfalsy
              · -- rule 7: fallback, filename stem
                simp only [List.mem_singleton] at hmem
                have hstem := splitextRoot_ne_empty (pbasename path) hbase
                rw [hmem] at hfalsy
                simp only [truthy_pyOr] at hfalsy
                simp [truthy, hstem] at hfalsy
  · intro y₁ y₂ p₁ p₂ cap kb h1 h2
    have hx1 : (extract_variable_info y₁ p₁).obj_id = .scalar "<UnnamedVariable>" := by
      simp [extract_variable_info, pyOr, h1]
    have hx2 : (extract_variable_info y₂ p₂).obj_id = .scalar "<UnnamedVariable>" := by
      simp [extract_variable_info, pyOr, h2]
    have ht1 : (extract_variable_info y₁ p₁).type_name = "YAML_Variable" := rfl
    have hf1 : (extract_variable_info y₁ p₁).file_path = p₁ := rfl
    have hfl1 : (extract_variable_info y₁ p₁).fields = [] := rfl
    have hdp1 : (extract_variable_info y₁ p₁).depends_on = [] := rfl
    unfold process_descriptors
    simp only [List.foldl]
    rw [create_base_object_known cap (extract_variable_info y₁ p₁) {} kb
      (by rw [ht1]; simp [KNOWN_SCHEMAS])]
    rw [if_pos (by constructor
                   · rw [hx1]; rfl
                   · simp [findById, alookup])]
    rw [create_base_object_known cap (extract_variable_info y₂ p₂) _ _
      (by simp [KNOWN_SCHEMAS, extract_variable_info])]
    rw [if_neg (by
      simp [hx2, hx1, findById, addObject, upsert, alookup])]
    simp [addObject, upsert, hx1, ht1, hf1, hfl1, hdp1]

/-- Witness for C10: on a concrete unnamed dimension document the
classifier's descriptor (falsy id) is a Dimension, and two concrete
unnamed variable documents collapse to one sentinel-keyed entity. -/
theorem C10_sentinel_ids_witness :
    (({ obj_id := Node.null, type_name := "YAML_Dimension", file_path := "d/dimension.yaml",
        fields := ["qGrouping"] } : Descriptor).type_name
      ∈ ["YAML_Dimension", "YAML_MasterMeasure", "YAML_MasterObject"]) ∧
    (process_descriptors capPlain
        [extract_variable_info (.map []) "v/a.yaml",
         extract_variable_info (.map [("Definition", .scalar "=1")]) "v/b.yaml"]
        {} {}).1.objects
      = [(.scalar "<UnnamedVariable>",
          { obj_id := .scalar "<UnnamedVariable>",
            node_type := "YAML_Variable", file_path := "v/a.yaml", fields := [],
            depends_on := [] })] := by
  constructor
  · exact C10_sentinel_ids.1 (.map [("Properties",
      .map [("qInfo", .map [("qType", .scalar "dimension")]),
            ("qDim", .map [("qGrouping", .scalar "N")])])])
      "d/dimension.yaml" []
      { obj_id := Node.null, type_name := "YAML_Dimension",
        file_path := "d/dimension.yaml", fields := ["qGrouping"] }
      (by decide) (by decide) (by decide)
  · exact C10_sentinel_ids.2 (.map []) (.map [("Definition", .scalar "=1")])
      "v/a.yaml" "v/b.yaml" capPlain {} (by decide) (by decide)

/-! ### C9 -/

/-- C9: embedding-capability absence is never fatal.  With the model
unavailable (`enc = none`), `find_candidate_type` yields no candidate
and `propose_type_for_fields` still resolves every field set by exact
matching or minting (both functions are total, so nothing raises); and a
comparison failure on one stored row makes `fcLoop` skip exactly that
row, leaving the scan of the remaining rows unchanged. -/
theorem C9_degraded_mode :
    (∀ (c : Emb → Emb → Option ℚ) (kb : KB) (fields : List String) (th : ℚ),
      find_candidate_type { enc := none, cos := c } kb fields th = none
      ∧ ((∃ t, kb.types.find?
            (fun t => setEqStr (t.fields.map lowerStr) (fields.map lowerStr))
              = some t
          ∧ propose_type_for_fields { enc := none, cos := c } kb fields none
              = (t.type_name, kb))
        ∨ (kb.types.find?
            (fun t => setEqStr (t.fields.map lowerStr) (fields.map lowerStr))
              = none
          ∧ (propose_type_for_fields { enc := none, cos := c } kb fields none).1
              = "UnknownType_" ++ toString (maxTypeId kb + 1))))
    ∧ (∀ (c : Emb → Emb → Option ℚ) (v : Emb) (pre post : List TypeEntry)
        (e : TypeEntry) (b : ℚ) (bt : Option Nat),
      rowSim c v e = none →
      fcLoop c v (pre ++ e :: post) b bt = fcLoop c v (pre ++ post) b bt) := by
  constructor
  · intro c kb fields th
    have hfcAll : ∀ (fs : List String) (t : ℚ),
        find_candidate_type { enc := none, cos := c } kb fs t = none := by
      intro fs t
      unfold find_candidate_type
      simp
    refine ⟨hfcAll fields th, ?_⟩
    cases hfind : kb.types.find?
        (fun t => setEqStr (t.fields.map lowerStr) (fields.map lowerStr)) with
    | some t =>
        left
        exact ⟨t, rfl, by unfold propose_type_for_fields; simp [hfind]⟩
    | none =>
        right
        refine ⟨rfl, ?_⟩
        unfold propose_type_for_fields
        simp [hfind, hfcAll]
  · intro c v pre post e b bt he
    induction pre generalizing b bt with
    | nil =>
        simp only [List.nil_append, fcLoop, he]
    | cons x xs ih =>
        simp only [List.cons_append, fcLoop]
        cases hx : rowSim c v x with
        | none => exact ih b bt
        | some s =>
            by_cases hbs : b < s
            · simp only [if_pos hbs]
              exact ih s (some x.type_id)
            · simp only [if_neg hbs]
              exact ih b bt

/-- A catalog holding only the suffix-less entry `Foo` with `type_id`
`1`. -/
def kbFoo : KB :=
  { types := [{ type_id := 1, type_name := "Foo", fields := ["alpha"] }] }

/-- A stored row whose comparison fails. -/
def rowBad : TypeEntry :=
  { type_id := 3, type_name := "Bad", fields := ["z"], emb := some [1] }

/-- Witness for C9: with the capability absent the fuzzy step yields no
candidate yet resolution mints, and a failing comparison on `rowBad`
skips exactly that row. -/
theorem C9_degraded_mode_witness :
    find_candidate_type { enc := none, cos := fun _ _ => none } kbFoo ["beta"]
      (9 / 10) = none ∧
    (propose_type_for_fields { enc := none, cos := fun _ _ => none } kbFoo
      ["beta"] none).1 = "UnknownType_2" ∧
    fcLoop (fun _ _ => none) [1] ([] ++ rowBad :: []) 0 none
      = fcLoop (fun _ _ => none) [1] ([] ++ []) 0 none := by
  have h1 := (C9_degraded_mode.1 (fun _ _ => none) kbFoo ["beta"] (9 / 10)).1
  have h2 := (C9_degraded_mode.1 (fun _ _ => none) kbFoo ["beta"] (9 / 10)).2
  have h3 := C9_degraded_mode.2 (fun _ _ => none) [1] [] [] rowBad 0 none (by decide)
  refine ⟨h1, ?_, h3⟩
  rcases h2 with ⟨t, ht, _⟩ | ⟨_, hmint⟩
  · have hnone : List.find?
        (fun t => setEqStr (t.fields.map lowerStr)
          ((["beta"] : List String).map lowerStr)) kbFoo.types = none := by
      decide
    rw [hnone] at ht
    exact Option.noConfusion ht
  · simpa using hmint

/-! ### C4 -/

/-- The largest numeric suffix of a type name (`0` when the name has
none) — the quantity the claim says minting increments. -/
def numericSuffixVal (s : String) : Nat :=
  (s.toList.reverse.takeWhile Char.isDigit).reverse.foldl
    (fun n c => n * 10 + (c.toNat - '0'.toNat)) 0

/-- The claim's `N - 1`: the largest numeric suffix occurring across
catalog entries. -/
def specLargestSuffix (kb : KB) : Nat :=
  (kb.types.map (fun t => numericSuffixVal t.type_name)).foldl max 0

/-- Counterexample to C4 as stated: on the catalog holding only the
suffix-less entry `Foo` (with `type_id` `1`), minting produces
`UnknownType_2` (largest `type_id` plus one), not the claim's
`UnknownType_1` (largest numeric suffix plus one). -/
theorem C4_suffix_counterexample :
    (propose_type_for_fields capPlain kbFoo ["beta"] none).1 = "UnknownType_2" ∧
    "UnknownType_" ++ toString (specLargestSuffix kbFoo + 1) = "UnknownType_1" ∧
    ("UnknownType_2" : String) ≠ "UnknownType_1" := by
  refine ⟨by decide, by decide, by decide⟩

/-- C4 (amended): when neither an exact nor a fuzzy match exists, the
minted name is `UnknownType_<N>` with `N` = largest existing `type_id`
(the catalog's autoincrement primary key) plus one, and — provided that
name is not already taken — an entry with that name and the normalized
(lowercased, sorted) field set is persisted before the name is
returned. -/
theorem C4_mint_from_max_type_id (cap : Cap) (kb : KB) (fields : List String)
    (hexact : kb.types.find?
      (fun t => setEqStr (t.fields.map lowerStr) (fields.map lowerStr)) = none)
    (hfuzzy : find_candidate_type cap kb (fields.map lowerStr) (9 / 10) = none)
    (hfresh : ∀ t ∈ kb.types,
      t.type_name ≠ "UnknownType_" ++ toString (maxTypeId kb + 1)) :
    (propose_type_for_fields cap kb fields none).1
      = "UnknownType_" ++ toString (maxTypeId kb + 1) ∧
    ∃ em, (propose_type_for_fields cap kb fields none).2.types
      = kb.types ++ [{ type_id := maxTypeId kb + 1,
                       type_name := "UnknownType_" ++ toString (maxTypeId kb + 1),
                       fields := sortStrings ((fields.map lowerStr).map lowerStr),
                       emb := em }] := by
  have hany : kb.types.any
      (fun t => t.type_name = "UnknownType_" ++ toString (maxTypeId kb + 1))
        = false := by
    rw [List.any_eq_false]
    intro t ht
    simpa using hfresh t ht
  have hadd : ∃ em, (add_type cap kb
      ("UnknownType_" ++ toString (maxTypeId kb + 1)) (fields.map lowerStr)
      none).types
      = kb.types ++ [{ type_id := maxTypeId kb + 1,
                       type_name := "UnknownType_" ++ toString (maxTypeId kb + 1),
                       fields := sortStrings ((fields.map lowerStr).map lowerStr),
                       emb := em }] := by
    refine ⟨(match cap.enc with
      | some enc => enc (String.intercalate " "
          (sortStrings ((fields.map lowerStr).map lowerStr)))
      | none => none), ?_⟩
    simp only [add_type]
    rw [hany]
    simp
  unfold propose_type_for_fields
  simp only [hexact, hfuzzy]
  exact ⟨rfl, hadd⟩

/-- Witness for C4's amended statement: the concrete mint on `kbFoo`. -/
theorem C4_mint_from_max_type_id_witness :
    (propose_type_for_fields capPlain kbFoo ["beta"] none).1 = "UnknownType_2" :=
  (C4_mint_from_max_type_id capPlain kbFoo ["beta"] (by decide) (by decide)
    (by decide)).1

/-! ### C6 -/

theorem map_lower_lower (l : List String) :
    (l.map lowerStr).map lowerStr = l.map lowerStr := by
  rw [List.map_map]
  have h : lowerStr ∘ lowerStr = lowerStr := funext lowerStr_idem
  rw [h]

theorem lower_eq_self_of_mem_norm (l : List String) (z : String)
    (hz : z ∈ l.map lowerStr) : lowerStr z = z := by
  rcases List.mem_map.mp hz with ⟨w, _, hw⟩
  rw [← hw]
  exact lowerStr_idem w

theorem setEqStr_true_of_iff (a b : List String) (h : ∀ x, x ∈ a ↔ x ∈ b) :
    setEqStr a b = true := by
  simp only [setEqStr, Bool.and_eq_true, List.all_eq_true]
  constructor
  · intro x hx
    simpa using (h x).mp hx
  · intro x hx
    simpa using (h x).mpr hx

/-- The entry minting stores matches its own normalized field set under
the exact-match predicate. -/
theorem setEq_minted (fields : List String) :
    setEqStr ((sortStrings ((fields.map lowerStr).map lowerStr)).map lowerStr)
      (fields.map lowerStr) = true := by
  rw [map_lower_lower]
  have hid : (sortStrings (fields.map lowerStr)).map lowerStr
      = sortStrings (fields.map lowerStr) := by
    have := List.map_congr_left (f := lowerStr) (g := id)
      (l := sortStrings (fields.map lowerStr))
      (fun x hx => lower_eq_self_of_mem_norm fields x
        ((mem_sortStrings x _).mp hx))
    simpa using this
  rw [hid]
  exact setEqStr_true_of_iff _ _ (fun x => mem_sortStrings x _)

theorem find?_append_of_none {α : Type} (p : α → Bool) (l₁ l₂ : List α)
    (h : l₁.find? p = none) : (l₁ ++ l₂).find? p = l₂.find? p := by
  rw [List.find?_append, h]
  rfl

/-- C6: resolution is idempotent.  A second `propose_type_for_fields`
call on the same field set against the catalog the first call produced
returns the same name and leaves the catalog untouched (in particular it
mints no second `UnknownType_*` entry): an exact or fuzzy first match
changes nothing, and a minted entry's stored lowercased field set is
found by the second call's case-insensitive, order-irrelevant exact
match. -/
theorem C6_resolve_idempotent (cap : Cap) (kb : KB) (fields : List String) :
    propose_type_for_fields cap
      (propose_type_for_fields cap kb fields none).2 fields none
      = propose_type_for_fields cap kb fields none := by
  cases hfind : kb.types.find?
      (fun t => setEqStr (t.fields.map lowerStr) (fields.map lowerStr)) with
  | some t =>
      have h1 : propose_type_for_fields cap kb fields none = (t.type_name, kb) := by
        unfold propose_type_for_fields
        simp [hfind]
      rw [h1]
      exact h1
  | none =>
      have hmint : ∀ h1 : propose_type_for_fields cap kb fields none
          = ("UnknownType_" ++ toString (maxTypeId kb + 1),
             add_type cap kb ("UnknownType_" ++ toString (maxTypeId kb + 1))
               (fields.map lowerStr) none),
          propose_type_for_fields cap
            (propose_type_for_fields cap kb fields none).2 fields none
            = propose_type_for_fields cap kb fields none := by
        intro h1
        rw [h1]
        by_cases hcol : kb.types.any
            (fun t => t.type_name = "UnknownType_" ++ toString (maxTypeId kb + 1))
        · have hkb2 : add_type cap kb
              ("UnknownType_" ++ toString (maxTypeId kb + 1))
              (fields.map lowerStr) none = kb := by
            simp only [add_type]
            rw [hcol]
            simp
          rw [hkb2]
          rw [hkb2] at h1
          exact h1
        · have hcolf : kb.types.any
              (fun t => t.type_name = "UnknownType_" ++ toString (maxTypeId kb + 1))
                = false := by
            simpa using hcol
          have hkb2 : (add_type cap kb
              ("UnknownType_" ++ toString (maxTypeId kb + 1))
              (fields.map lowerStr) none).types
              = kb.types ++ [{
                  type_id := maxTypeId kb + 1,
                  type_name := "UnknownType_" ++ toString (maxTypeId kb + 1),
                  fields := sortStrings ((fields.map lowerStr).map lowerStr),
                  emb := match cap.enc with
                    | some enc => enc (String.intercalate " "
                        (sortStrings ((fields.map lowerStr).map lowerStr)))
                    | none => none }] := by
            simp only [add_type]
            rw [hcolf]
            simp
          have hfind2 : (add_type cap kb
              ("UnknownType_" ++ toString (maxTypeId kb + 1))
              (fields.map lowerStr) none).types.find?
                (fun t => setEqStr (t.fields.map lowerStr) (fields.map lowerStr))
              = some {
                  type_id := maxTypeId kb + 1,
                  type_name := "UnknownType_" ++ toString (maxTypeId kb + 1),
                  fields := sortStrings ((fields.map lowerStr).map lowerStr),
                  emb := match cap.enc with
                    | some enc => enc (String.intercalate " "
                        (sortStrings ((fields.map lowerStr).map lowerStr)))
                    | none => none } := by
            rw [hkb2, find?_append_of_none _ _ _ hfind]
            apply List.find?_cons_of_pos
            exact setEq_minted fields
          unfold propose_type_for_fields
          simp [hfind2]
      cases hc : find_candidate_type cap kb (fields.map lowerStr) (9 / 10) with
      | none =>
          exact hmint (by
            unfold propose_type_for_fields
            simp [hfind, hc])
      | some cid =>
          by_cases hcid : cid = 0
          · exact hmint (by
              unfold propose_type_for_fields
              simp [hfind, hc, hcid])
          · cases hrow : kb.types.find? (fun r => r.type_id = cid) with
            | some row =>
                have h1 : propose_type_for_fields cap kb fields none
                    = (row.type_name, kb) := by
                  unfold propose_type_for_fields
                  simp [hfind, hc, hcid, hrow]
                rw [h1]
                exact h1
            | none =>
                exact hmint (by
                  unfold propose_type_for_fields
                  simp [hfind, hc, hcid, hrow])

/-! ### C8 -/

theorem fcLoop_cons_none {cos : Emb → Emb → Option ℚ} {v : Emb}
    {u : TypeEntry} {us : List TypeEntry} {b : ℚ} {bt : Option Nat}
    (h : rowSim cos v u = none) :
    fcLoop cos v (u :: us) b bt = fcLoop cos v us b bt := by
  rw [fcLoop.eq_2, h]

theorem fcLoop_cons_some {cos : Emb → Emb → Option ℚ} {v : Emb}
    {u : TypeEntry} {us : List TypeEntry} {b : ℚ} {bt : Option Nat} {s : ℚ}
    (h : rowSim cos v u = some s) :
    fcLoop cos v (u :: us) b bt =
      if b < s then fcLoop cos v us s (some u.type_id)
      else fcLoop cos v us b bt := by
  rw [fcLoop.eq_2, h]

/-- When every remaining similarity is at most the running best, the
scan changes nothing (strict improvement is required to update). -/
theorem fcLoop_no_update (cos : Emb → Emb → Option ℚ) (v : Emb) :
    ∀ (rows : List TypeEntry) (b : ℚ) (bt : Option Nat),
    (∀ u ∈ rows, ∀ s, rowSim cos v u = some s → s ≤ b) →
    fcLoop cos v rows b bt = (b, bt) := by
  intro rows
  induction rows with
  | nil => intro b bt _; rfl
  | cons u us ih =>
      intro b bt h
      cases hu : rowSim cos v u with
      | none =>
          rw [fcLoop_cons_none hu]
          exact ih b bt (fun w hw => h w (List.mem_cons_of_mem _ hw))
      | some s =>
          have hs : s ≤ b := h u (List.mem_cons_self _ _) s hu
          rw [fcLoop_cons_some hu, if_neg (not_lt.mpr hs)]
          exact ih b bt (fun w hw => h w (List.mem_cons_of_mem _ hw))

/-- The scan ends at the first row attaining the maximum similarity:
with every earlier row strictly below `M`, every row at most `M`, and
row `i` exactly `M > b`, the final accumulator is `(M, row i's id)`. -/
theorem fcLoop_first_max (cos : Emb → Emb → Option ℚ) (v : Emb) (M : ℚ) :
    ∀ (rows : List TypeEntry) (i : Nat) (t : TypeEntry) (b : ℚ) (bt : Option Nat),
    b < M →
    rows.get? i = some t →
    rowSim cos v t = some M →
    (∀ j, j < i → ∀ u, rows.get? j = some u →
      ∀ s, rowSim cos v u = some s → s < M) →
    (∀ u ∈ rows, ∀ s, rowSim cos v u = some s → s ≤ M) →
    fcLoop cos v rows b bt = (M, some t.type_id) := by
  intro rows
  induction rows with
  | nil => intro i t b bt _ hit; simp at hit
  | cons u us ih =>
      intro i t b bt hb hit hM hfirst hmax
      cases i with
      | zero =>
          simp only [List.get?_cons_zero, Option.some.injEq] at hit
          subst hit
          rw [fcLoop_cons_some hM, if_pos hb]
          exact fcLoop_no_update cos v us M (some u.type_id)
            (fun w hw => hmax w (List.mem_cons_of_mem _ hw))
      | succ j =>
          simp only [List.get?_cons_succ] at hit
          have hshift : ∀ j', j' < j → ∀ w, us.get? j' = some w →
              ∀ s, rowSim cos v w = some s → s < M := by
            intro j' hj' w hw s hs
            exact hfirst (j' + 1) (by omega) w (by simpa using hw) s hs
          have hmax' : ∀ w ∈ us, ∀ s, rowSim cos v w = some s → s ≤ M :=
            fun w hw => hmax w (List.mem_cons_of_mem _ hw)
          cases hu : rowSim cos v u with
          | none =>
              rw [fcLoop_cons_none hu]
              exact ih j t b bt hb hit hM hshift hmax'
          | some s =>
              have hsM : s < M :=
                hfirst 0 (by omega) u (by simp) s hu
              rw [fcLoop_cons_some hu]
              by_cases hbs : b < s
              · rw [if_pos hbs]
                exact ih j t s (some u.type_id) hsM hit hM hshift hmax'
              · rw [if_neg hbs]
                exact ih j t b bt hb hit hM hshift hmax'

/-- The final best similarity never exceeds a bound dominating the
start value and every row similarity. -/
theorem fcLoop_ub (cos : Emb → Emb → Option ℚ) (v : Emb) (B : ℚ) :
    ∀ (rows : List TypeEntry) (b : ℚ) (bt : Option Nat), b ≤ B →
    (∀ u ∈ rows, ∀ s, rowSim cos v u = some s → s ≤ B) →
    (fcLoop cos v rows b bt).1 ≤ B := by
  intro rows
  induction rows with
  | nil => intro b bt hb _; exact hb
  | cons u us ih =>
      intro b bt hb h
      cases hu : rowSim cos v u with
      | none =>
          rw [fcLoop_cons_none hu]
          exact ih b bt hb (fun w hw => h w (List.mem_cons_of_mem _ hw))
      | some s =>
          rw [fcLoop_cons_some hu]
          by_cases hbs : b < s
          · rw [if_pos hbs]
            exact ih s (some u.type_id) (h u (List.mem_cons_self _ _) s hu)
              (fun w hw => h w (List.mem_cons_of_mem _ hw))
          · rw [if_neg hbs]
            exact ih b bt hb (fun w hw => h w (List.mem_cons_of_mem _ hw))

/-- With unrepeated `type_id`s, looking a member entry up by its own id
finds exactly it. -/
theorem find?_by_id_self (l : List TypeEntry) (t : TypeEntry)
    (ht : t ∈ l) (hnodup : (l.map (·.type_id)).Nodup) :
    l.find? (fun r => r.type_id = t.type_id) = some t := by
  induction l with
  | nil => cases ht
  | cons u us ih =>
      simp only [List.map_cons, List.nodup_cons] at hnodup
      rcases List.mem_cons.mp ht with h | h
      · subst h
        exact List.find?_cons_of_pos _ (by simp)
      · have hne : u.type_id ≠ t.type_id := by
          intro hc
          exact hnodup.1 (hc ▸ List.mem_map_of_mem (·.type_id) h)
        rw [List.find?_cons_of_neg _ (by simpa using hne)]
        exact ih h hnodup.2

/-- C8: fuzzy matching uses an inclusive `0.9` threshold with
first-encountered-max tie-breaking.  With the embedding capability
available, a non-empty catalog, no exact match, and `t` the first stored
row attaining the maximum similarity `M`: when `0.9 ≤ M` resolution
returns `t`'s name (the catalog untouched), and when `M < 0.9` it mints
`UnknownType_<max type_id + 1>` instead. -/
theorem C8_fuzzy_threshold (cap : Cap) (kb : KB) (fields : List String)
    (encf : String → Option Emb) (v : Emb) (i : Nat) (t : TypeEntry) (M : ℚ)
    (henc : cap.enc = some encf)
    (hv : encf (String.intercalate " "
        (sortStrings ((fields.map lowerStr).map lowerStr))) = some v)
    (hne : kb.types.isEmpty = false)
    (hexact : kb.types.find?
      (fun u => setEqStr (u.fields.map lowerStr) (fields.map lowerStr)) = none)
    (hit : (kb.types.filter (fun u => u.emb.isSome)).get? i = some t)
    (hM : rowSim cap.cos v t = some M)
    (hfirst : ∀ j, j < i → ∀ u,
      (kb.types.filter (fun u => u.emb.isSome)).get? j = some u →
      ∀ s, rowSim cap.cos v u = some s → s < M)
    (hmax : ∀ u ∈ kb.types.filter (fun u => u.emb.isSome),
      ∀ s, rowSim cap.cos v u = some s → s ≤ M)
    (hid : t.type_id ≠ 0)
    (hnodup : (kb.types.map (·.type_id)).Nodup) :
    ((9 / 10 : ℚ) ≤ M →
      propose_type_for_fields cap kb fields none = (t.type_name, kb)) ∧
    (M < 9 / 10 →
      (propose_type_for_fields cap kb fields none).1
        = "UnknownType_" ++ toString (maxTypeId kb + 1)) := by
  constructor
  · intro h9
    have h0M : (0 : ℚ) < M := lt_of_lt_of_le (by norm_num) h9
    have hfc : find_candidate_type cap kb (fields.map lowerStr) (9 / 10)
        = some t.type_id := by
      unfold find_candidate_type
      rw [if_neg (by simp [hne, henc])]
      rw [henc]
      simp only [hv]
      rw [fcLoop_first_max cap.cos v M _ i t 0 none h0M hit hM hfirst hmax]
      simp [h9]
    have hrowfind : kb.types.find? (fun r => r.type_id = t.type_id) = some t :=
      find?_by_id_self kb.types t
        (List.mem_of_mem_filter (List.get?_mem hit)) hnodup
    unfold propose_type_for_fields
    simp [hexact, hfc, hid, hrowfind]
  · intro h9
    have hfc : find_candidate_type cap kb (fields.map lowerStr) (9 / 10)
        = none := by
      unfold find_candidate_type
      rw [if_neg (by simp [hne, henc])]
      rw [henc]
      simp only [hv]
      have hub : (fcLoop cap.cos v
          (kb.types.filter (fun u => u.emb.isSome)) 0 none).1 ≤ max M 0 :=
        fcLoop_ub cap.cos v (max M 0) _ 0 none (le_max_right _ _)
          (fun u hu s hs => le_trans (hmax u hu s hs) (le_max_left _ _))
      have hlt : (fcLoop cap.cos v
          (kb.types.filter (fun u => u.emb.isSome)) 0 none).1 < 9 / 10 :=
        lt_of_le_of_lt hub (max_lt h9 (by norm_num))
      rcases hpair : fcLoop cap.cos v
          (kb.types.filter (fun u => u.emb.isSome)) 0 none with ⟨bs, bt⟩
      rw [hpair] at hlt
      cases bt with
      | none => simp
      | some tid => simp [not_le.mpr hlt]
    unfold propose_type_for_fields
    simp [hexact, hfc]

/-- A stored row whose embedding has maximal similarity to the query. -/
def rowHit : TypeEntry :=
  { type_id := 1, type_name := "SchemaA", fields := ["alpha"], emb := some [2] }

/-- A one-row catalog for the fuzzy-threshold witness. -/
def kbHit : KB := { types := [rowHit] }

/-- A capability whose encoder always succeeds and whose similarity is
exactly the threshold `0.9`. -/
def capHit : Cap := { enc := some (fun _ => some [1]), cos := fun _ _ => some (9 / 10) }

/-- Witness for C8: a similarity of exactly `0.9` matches the stored
entry. -/
theorem C8_fuzzy_threshold_witness :
    propose_type_for_fields capHit kbHit ["beta"] none = ("SchemaA", kbHit) :=
  (C8_fuzzy_threshold capHit kbHit ["beta"] (fun _ => some [1]) [1] 0 rowHit
    (9 / 10) rfl rfl rfl (by decide) rfl rfl
    (fun j hj => absurd hj (Nat.not_lt_zero j))
    (by
      intro u hu s hs
      have hu' : u = rowHit := by
        simpa [kbHit] using List.mem_of_mem_filter hu
      subst hu'
      exact le_of_eq (Option.some.inj hs).symm)
    (by decide) (by decide)).1 (le_refl _)

/-! ### C5 -/

/-- C5: rules 3 and 4 diverge as specified.  For a document (not caught
by the variables rule) whose lowercased filename is `measure.yaml`,
whose type tag is in `{measure, mastermeasure, masterobject}` (with a
measures list — `is_master_measure`) and whose measures list is
non-empty, classification yields one MasterMeasure descriptor per list
entry, the entry's id taken from its own id, else its library-reference
id, else its title, and its definition from the entry's `qDef`; whereas
under the filename `masterobject.yaml` the same predicate always yields
exactly one MasterObject container descriptor, whatever the measures
list holds. -/
theorem C5_measure_explodes_masterobject_singular
    (y : Node) (pathM pathO : String) (so : List String)
    (hymap : isMapN y = true)
    (hvarM : ¬ (lowerStr (pbasename (pdirname pathM)) = "variables"
      ∧ is_variable y pathM = true))
    (hfM : lowerStr (pbasename pathM) = "measure.yaml")
    (hmm : is_master_measure y = true)
    (hne : truthy (pyOr (dget (pyOr (dget y "qHyperCubeDef") (.map []))
      "qMeasures") (.seq [])) = true)
    (hvarO : ¬ (lowerStr (pbasename (pdirname pathO)) = "variables"
      ∧ is_variable y pathO = true))
    (hfO : lowerStr (pbasename pathO) = "masterobject.yaml") :
    classify_and_extract y pathM true so
      = (asSeq (pyOr (dget (pyOr (dget y "qHyperCubeDef") (.map []))
          "qMeasures") (.seq []))).map (measure_entry_desc pathM)
    ∧ (∀ m, (measure_entry_desc pathM m).type_name = "YAML_MasterMeasure"
        ∧ (measure_entry_desc pathM m).obj_id
            = pyOr (pyOr (dget (pyOr (dget m "qInfo") (.map [])) "qId")
                (dget m "qLibraryId"))
                (dget (pyOr (dget m "qMetaDef") (.map [])) "title")
        ∧ (measure_entry_desc pathM m).definition = dgetD m "qDef" (.scalar ""))
    ∧ classify_and_extract y pathO true so
        = [{ obj_id := dget (get_qinfo y) "qId",
             type_name := "YAML_MasterObject",
             fields := nodeKeys (pyOr (dget y "Properties") (.map [])),
             file_path := pathO }] := by
  have hd2M : ¬ (lowerStr (pbasename pathM) = "dimension.yaml"
      ∧ is_dimension y = true) := by
    rintro ⟨hc, -⟩
    exact absurd (hfM.symm.trans hc) (by decide)
  have hd2O : ¬ (lowerStr (pbasename pathO) = "dimension.yaml"
      ∧ is_dimension y = true) := by
    rintro ⟨hc, -⟩
    exact absurd (hfO.symm.trans hc) (by decide)
  have hd3O : ¬ (lowerStr (pbasename pathO) = "measure.yaml"
      ∧ is_master_measure y = true) := by
    rintro ⟨hc, -⟩
    exact absurd (hfO.symm.trans hc) (by decide)
  refine ⟨?_, fun m => ⟨rfl, rfl, rfl⟩, ?_⟩
  · unfold classify_and_extract
    rw [if_neg (by simp), if_neg (by simp [hymap]), if_neg hvarM,
      if_neg hd2M, if_pos ⟨hfM, hmm⟩]
    unfold extract_master_measure_info
    rw [if_neg (by simp [hne])]
  · unfold classify_and_extract
    rw [if_neg (by simp), if_neg (by simp [hymap]), if_neg hvarO,
      if_neg hd2O, if_neg hd3O, if_pos ⟨hfO, hmm⟩]

/-- A measures document with two entries: one identified by its own id,
one by a library reference. -/
def measDocC5 : Node := .map [
  ("qInfo", .map [("qType", .scalar "measure")]),
  ("qHyperCubeDef", .map [("qMeasures", .seq [
     .map [("qInfo", .map [("qId", .scalar "M1")]), ("qDef", .scalar "Sum(X)")],
     .map [("qLibraryId", .scalar "M2"), ("qDef", .scalar "Avg(Y)")]])])]

/-- Witness for C5: the two-entry measures document explodes into `M1`
and `M2` MasterMeasures under `measure.yaml`, and stays one MasterObject
container under `masterobject.yaml`. -/
theorem C5_measure_explodes_masterobject_singular_witness :
    classify_and_extract measDocC5 "app/measures/measure.yaml" true []
      = [{ obj_id := .scalar "M1", type_name := "YAML_MasterMeasure",
           definition := .scalar "Sum(X)", fields := [],
           file_path := "app/measures/measure.yaml" },
         { obj_id := .scalar "M2", type_name := "YAML_MasterMeasure",
           definition := .scalar "Avg(Y)", fields := [],
           file_path := "app/measures/measure.yaml" }] ∧
    classify_and_extract measDocC5 "app/mo/masterobject.yaml" true []
      = [{ obj_id := Node.null, type_name := "YAML_MasterObject",
           fields := [], file_path := "app/mo/masterobject.yaml" }] := by
  have h := C5_measure_explodes_masterobject_singular measDocC5
    "app/measures/measure.yaml" "app/mo/masterobject.yaml" []
    (by decide) (by decide) (by decide) (by decide) (by decide)
    (by decide) (by decide)
  exact ⟨h.1.trans (by decide), h.2.2.trans (by decide)⟩

end QopsChecks
